import Mathlib

/-!
Verification development for the mini shell in `My_Shell.c`.

The C source is shallowly embedded as executable Lean functions:

* `parse_args` (source lines 112-117) is modelled as the list of
  `(index, value)` writes the `strtok` loop performs into the
  `char *args[MAX_ARGS]` array; a `none` value is a NULL pointer.
* `handle_redirection` (lines 120-140) runs over the argument array
  (`List (Option String)`, `none` = NULL) with an explicit index, an
  abstract file system `fs : String → Nat → Bool` deciding whether an
  `open` call on a path with given flags succeeds, and a state recording
  the `open` calls issued, the stderr diagnostics (`perror`), the stdin
  and stdout bindings produced by the `dup2` calls, and whether any array
  access went outside the allocated array (C undefined behavior).
* `execute_pipeline` (lines 143-183) is modelled as the sequence of
  process-level events the parent performs (`pipe`, `fork`, `wait`,
  `close`), from which the parent's set of open pipe descriptors is
  recomputed.
* `shell_loop`'s per-line body (lines 189-229) is `shell_iteration`,
  returning the updated history and the list of events of that iteration.

Machine strings are Lean `String`s / `List Char`; the abstract events
carry the exact argument data the source passes around.
-/

/-- MAX_ARGS from the source (`#define MAX_ARGS 128`). -/
def MAX_ARGS : Nat := 128

/-- MAX_HISTORY from the source (`#define MAX_HISTORY 1000`). -/
def MAX_HISTORY : Nat := 1000

/-- One split step of `strtok`: cut a character list at every occurrence of
the delimiter (helper; `strtok` then discards the empty fields). -/
def splitAux (d : Char) (cur : List Char) : List Char → List (List Char)
  | [] => [cur.reverse]
  | c :: rest => if c = d then cur.reverse :: splitAux d [] rest else splitAux d (c :: cur) rest

/-- Successive `strtok(line, delim)` results for a one-character delimiter:
the non-empty fields, in order. -/
def strtokSplit (d : Char) (cs : List Char) : List String :=
  ((splitAux d [] cs).filter (fun p => !p.isEmpty)).map (fun p => String.mk p)

/-- The whitespace tokenization `parse_args` performs (`strtok(line, " ")`). -/
def tokenize (cs : List Char) : List String := strtokSplit ' ' cs

/-- The stage split `execute_pipeline` performs (`strtok(line, "|")`). -/
def splitPipe (cs : List Char) : List String := strtokSplit '|' cs

/-- `trim_newline` (source lines 40-42): truncate at the first newline. -/
def trim_newline (cs : List Char) : List Char := cs.takeWhile (fun c => c ≠ '\n')

/-- `add_history` (source lines 30-33): append while fewer than
MAX_HISTORY entries are stored. -/
def add_history (hist : List String) (line : String) : List String :=
  if hist.length < MAX_HISTORY then hist ++ [line] else hist

/-- Characters accepted into a `$`-variable name by `expand_variables`
(source line 64: `isalnum(line[i]) || line[i]=='_'`). -/
def isVarChar (c : Char) : Bool := c.isAlphanum || c = '_'

/-- Body of `expand_variables` (source lines 55-76), structural on fuel;
each step consumes at least one character, so fuel = input length suffices.
`env` models `getenv` (a `none` result appends nothing, as in the source). -/
def expandAux (env : String → Option String) : Nat → List Char → List Char
  | 0, _ => []
  | _, [] => []
  | fuel + 1, c :: rest =>
    if c = '$' then
      (match env (String.mk (rest.takeWhile isVarChar)) with
        | some v => v.toList
        | none => []) ++ expandAux env fuel (rest.dropWhile isVarChar)
    else c :: expandAux env fuel rest

/-- `expand_variables` (source lines 55-76). -/
def expand_variables (env : String → Option String) (cs : List Char) : List Char :=
  expandAux env cs.length cs

/-- `handle_builtin` (source lines 79-109) as the predicate deciding whether
the argument vector is consumed by a builtin (returns nonzero): a NULL
`args[0]` or one of `exit`, `cd`, `history`, `export`. -/
def handle_builtin (args : List String) : Bool :=
  match args with
  | [] => true
  | a :: _ => a = "exit" || a = "cd" || a = "history" || a = "export"

/-- The `&` check of `shell_loop` (source lines 210-216): if the last
argument is `"&"`, mark background and drop it. -/
def stripAmp (args : List String) : Bool × List String :=
  if args.getLast? = some "&" then (true, args.dropLast) else (false, args)

/-- The write loop of `parse_args` (source lines 115-116), as the list of
`(index, value)` array writes it performs after the initial write; fuel is
structural (the loop index is bounded by MAX_ARGS-1, so MAX_ARGS-1 fuel
suffices). -/
def parseArgsLoop (tokens : List String) (i : Nat) : Nat → List (Nat × Option String)
  | 0 => []
  | fuel + 1 =>
    if (tokens[i]?).isSome ∧ i < MAX_ARGS - 1 then
      (i + 1, tokens[i + 1]?) :: parseArgsLoop tokens (i + 1) fuel
    else []

/-- `parse_args` (source lines 112-117): the full list of `(index, value)`
writes into the `char *args[MAX_ARGS]` array, given the successive `strtok`
results `tokens`. A `none` value is the NULL pointer `strtok` returns when
tokens are exhausted. -/
def parse_args (tokens : List String) : List (Nat × Option String) :=
  (0, tokens[0]?) :: parseArgsLoop tokens 0 (MAX_ARGS - 1)

/-- `O_RDONLY` (value on the target platform). -/
def O_RDONLY : Nat := 0

/-- `O_WRONLY` (value on the target platform). -/
def O_WRONLY : Nat := 1

/-- `O_CREAT` (value on the target platform). -/
def O_CREAT : Nat := 64

/-- `O_TRUNC` (value on the target platform). -/
def O_TRUNC : Nat := 512

/-- `O_APPEND` (value on the target platform). -/
def O_APPEND : Nat := 1024

/-- The three redirection directions of the shell. -/
inductive RedirOp
  | rIn
  | rTrunc
  | rApp
deriving DecidableEq

/-- One `open` call as issued by `handle_redirection`: the path argument
(`none` models passing a NULL pointer), the flags, and the optional third
(mode) argument. -/
structure OpenCall where
  path : Option String
  flags : Nat
  mode : Option Nat
deriving DecidableEq

/-- State threaded through `handle_redirection`: the argument array, the
stdin/stdout bindings established by successful `dup2` calls
(`none` = stream still inherited), the `open` calls issued, the `perror`
diagnostics, and whether an array access fell outside the array. -/
structure RState where
  args : List (Option String)
  stdinS : Option String
  stdoutS : Option String
  opens : List OpenCall
  errs : List String
  oob : Bool
deriving DecidableEq

/-- Success of an `open` call: a NULL path always fails (EFAULT); otherwise
the abstract file system decides by path and flags. -/
def openCall (fs : String → Nat → Bool) : Option String → Nat → Bool
  | none, _ => false
  | some p, flags => fs p flags

/-- The loop of `handle_redirection` (source lines 121-139), structural on
fuel. Each iteration reads `args[i]`; a read outside the array sets `oob`
(undefined behavior in C). `>` opens with `O_WRONLY|O_CREAT|O_TRUNC, 0644`,
`>>` with `O_WRONLY|O_CREAT|O_APPEND, 0644`, `<` with `O_RDONLY` and a
`perror("open")` on failure; each then `dup2`s the descriptor onto the
stream (a no-op when the open failed, since `dup2(-1,·)` fails) and NULLs
`args[i]`. -/
def hrLoop (fs : String → Nat → Bool) : Nat → RState → Nat → RState
  | 0, st, _ => st
  | fuel + 1, st, i =>
    match st.args[i]? with
    | none => { st with oob := true }
    | some none => st
    | some (some tok) =>
      if tok = ">" then
        let pathR := st.args[i + 1]?
        let path := pathR.getD none
        let ok := openCall fs path (O_WRONLY ||| O_CREAT ||| O_TRUNC)
        hrLoop fs fuel
          { args := st.args.set i none,
            stdinS := st.stdinS,
            stdoutS := if ok then path else st.stdoutS,
            opens := st.opens ++ [⟨path, O_WRONLY ||| O_CREAT ||| O_TRUNC, some 0o644⟩],
            errs := st.errs,
            oob := st.oob || pathR.isNone } (i + 1)
      else if tok = ">>" then
        let pathR := st.args[i + 1]?
        let path := pathR.getD none
        let ok := openCall fs path (O_WRONLY ||| O_CREAT ||| O_APPEND)
        hrLoop fs fuel
          { args := st.args.set i none,
            stdinS := st.stdinS,
            stdoutS := if ok then path else st.stdoutS,
            opens := st.opens ++ [⟨path, O_WRONLY ||| O_CREAT ||| O_APPEND, some 0o644⟩],
            errs := st.errs,
            oob := st.oob || pathR.isNone } (i + 1)
      else if tok = "<" then
        let pathR := st.args[i + 1]?
        let path := pathR.getD none
        let ok := openCall fs path O_RDONLY
        hrLoop fs fuel
          { args := st.args.set i none,
            stdinS := if ok then path else st.stdinS,
            stdoutS := st.stdoutS,
            opens := st.opens ++ [⟨path, O_RDONLY, none⟩],
            errs := st.errs ++ (if ok then [] else ["open"]),
            oob := st.oob || pathR.isNone } (i + 1)
      else hrLoop fs fuel st (i + 1)

/-- `handle_redirection` (source lines 120-140), run on the argument array. -/
def handle_redirection (fs : String → Nat → Bool) (args : List (Option String)) : RState :=
  hrLoop fs (args.length + 1) ⟨args, none, none, [], [], false⟩ 0

/-- Is a token one of the three redirection operators? -/
def isRedirTok (t : String) : Bool := t = ">" || t = ">>" || t = "<"

/-- Specification-side view of the redirections a token list contains: each
operator token paired with the token that follows it (`none` when it is the
last token, matching the NULL terminator the loop reads there). -/
def redirOccs : List String → List (RedirOp × Option String)
  | [] => []
  | t :: rest =>
    if t = ">" then (RedirOp.rTrunc, rest.head?) :: redirOccs rest
    else if t = ">>" then (RedirOp.rApp, rest.head?) :: redirOccs rest
    else if t = "<" then (RedirOp.rIn, rest.head?) :: redirOccs rest
    else redirOccs rest

/-- The open flags the specification assigns to each direction: read-only
for `<`, create-or-truncate write-only for `>`, create-or-append write-only
for `>>`. -/
def opFlags : RedirOp → Nat
  | RedirOp.rIn => O_RDONLY
  | RedirOp.rTrunc => O_WRONLY ||| O_CREAT ||| O_TRUNC
  | RedirOp.rApp => O_WRONLY ||| O_CREAT ||| O_APPEND

/-- The mode argument the specification assigns: none for `<`, permission
bits 0644 for both write variants. -/
def opMode : RedirOp → Option Nat
  | RedirOp.rIn => none
  | _ => some 0o644

/-- The `open` call a redirection occurrence should produce. -/
def occCall (o : RedirOp × Option String) : OpenCall := ⟨o.2, opFlags o.1, opMode o.1⟩

/-- Diagnostics produced by a list of redirection occurrences: only a `<`
whose open fails reports (`perror("open")`); failing `>`/`>>` opens are
silent in the source. -/
def errsOfOccs (fs : String → Nat → Bool) : List (RedirOp × Option String) → List String
  | [] => []
  | (op, p) :: rest =>
    (if op = RedirOp.rIn && !(openCall fs p O_RDONLY) then ["open"] else []) ++ errsOfOccs fs rest

/-- Stream bindings after applying redirection occurrences left to right:
each successful open rebinds its stream, a failed open leaves it. -/
def applyOccs (fs : String → Nat → Bool) :
    List (RedirOp × Option String) → Option String × Option String → Option String × Option String
  | [], s => s
  | (op, p) :: rest, (si, so) =>
    let ok := openCall fs p (opFlags op)
    if op = RedirOp.rIn then applyOccs fs rest ((if ok then p else si), so)
    else applyOccs fs rest (si, (if ok then p else so))

/-- Final contents of the token region of the argument array: every
redirection-operator position has been NULLed, every other token is intact. -/
def markRedirs (tokens : List String) : List (Option String) :=
  tokens.map (fun t => if isRedirTok t then none else some t)

/-- The argument vector `execvp` receives from an argument array: the
entries up to the first NULL. -/
def argvOf : List (Option String) → List String
  | [] => []
  | none :: _ => []
  | some s :: rest => s :: argvOf rest

/-- Events of the parent shell process, in program order. -/
inductive Ev
  | pipe (k : Nat)
  | forkStage (cmd : String)
  | waitAny
  | closeWr (k : Nat)
  | builtin
  | forkSimple (args : List String)
  | waitpid
deriving DecidableEq

/-- The `for (i=0; i<num_cmds-1; i++)` loop of `execute_pipeline` (source
lines 151-170): each iteration creates pipe `i`, forks the child for
`commands[i]`, calls `wait(NULL)`, closes the pipe's write end, and keeps
the read end as `in_fd`. `n` is the remaining iteration count. -/
def pipeLoopAux (commands : List String) (i : Nat) : Nat → List Ev
  | 0 => []
  | n + 1 =>
    Ev.pipe i :: Ev.forkStage (commands.getD i "") :: Ev.waitAny :: Ev.closeWr i ::
      pipeLoopAux commands (i + 1) n

/-- `execute_pipeline` (source lines 143-183) as its parent-side event
trace. `commands` is the `strtok(line, "|")` stage list; `num_cmds` is one
more than the stage count because the source's post-increment also counts
the terminating NULL. After the loop, the source forks
`commands[num_cmds-2]` once more and waits. -/
def execute_pipeline (commands : List String) : List Ev :=
  let num_cmds := commands.length + 1
  pipeLoopAux commands 0 (num_cmds - 1) ++
    [Ev.forkStage (commands.getD (num_cmds - 2) ""), Ev.waitAny]

/-- A pipe-end descriptor held by the parent: the read or write end of the
`k`-th pipe created. -/
inductive PFd
  | rd (k : Nat)
  | wr (k : Nat)
deriving DecidableEq

/-- Effect of one parent event on the parent's open pipe descriptors:
`pipe` opens both ends, `close(pipefd[1])` closes the write end; no event
of the source ever closes a read end in the parent. -/
def parentFdStep (fds : List PFd) : Ev → List PFd
  | Ev.pipe k => fds ++ [PFd.rd k, PFd.wr k]
  | Ev.closeWr k => fds.filter (fun f => f ≠ PFd.wr k)
  | _ => fds

/-- Pipe descriptors the parent still holds open after a trace. -/
def parentOpenFds (evs : List Ev) : List PFd := evs.foldl parentFdStep []

/-- Number of `pipe(2)` calls in a trace. -/
def countPipes (evs : List Ev) : Nat :=
  evs.countP (fun e => match e with | Ev.pipe _ => true | _ => false)

/-- Number of times a given stage command is forked in a trace. -/
def countForksOf (evs : List Ev) (c : String) : Nat :=
  evs.countP (fun e => decide (e = Ev.forkStage c))

/-- Does a `wait` occur strictly before some later fork in the trace? -/
def hasWaitThenFork : List Ev → Bool
  | [] => false
  | Ev.waitAny :: rest =>
    rest.any (fun e => match e with | Ev.forkStage _ => true | _ => false) || hasWaitThenFork rest
  | _ :: rest => hasWaitThenFork rest

/-- One iteration of `shell_loop` (source lines 189-229) on one raw input
line: returns the updated history and the list of events performed.
Follows the source order: trim the newline, skip empty lines, record
history, expand variables, dispatch to `execute_pipeline` when the line
contains `|`, otherwise tokenize, strip a trailing `&`, try builtins, and
fork (waiting unless background). -/
def shell_iteration (env : String → Option String) (hist : List String) (raw : List Char) :
    List String × List Ev :=
  let line := trim_newline raw
  if line.length = 0 then (hist, [])
  else
    let hist' := add_history hist (String.mk line)
    let line' := expand_variables env line
    if line'.elem '|' then (hist', execute_pipeline (splitPipe line'))
    else
      let sa := stripAmp (tokenize line')
      if handle_builtin sa.2 then (hist', [Ev.builtin])
      else (hist', Ev.forkSimple sa.2 :: (if sa.1 then [] else [Ev.waitpid]))

/-- Index lemma: reading an appended list at the length of the front part
reads the head of the back part. -/
theorem getElem?_append_len {α : Type} (front l : List α) : (front ++ l)[front.length]? = l[0]? := by
  induction front with
  | nil => simp
  | cons a fr ih => simpa using ih

/-- Index lemma: reading one past the front part skips one element of the
back part. -/
theorem getElem?_append_len_succ {α : Type} (front : List α) (x : α) (l : List α) :
    (front ++ x :: l)[front.length + 1]? = l[0]? := by
  have h := getElem?_append_len (front ++ [x]) l
  simpa using h

/-- Writing an appended list at the length of the front part replaces the
head of the back part. -/
theorem set_append_len {α : Type} (front : List α) (x : α) (l : List α) (a : α) :
    (front ++ x :: l).set front.length a = front ++ a :: l := by
  induction front with
  | nil => simp
  | cons b fr ih => simp [ih]

/-- Head of the token region of an argument array: the token after the
cursor, or the NULL terminator when no token follows. -/
theorem mapSome_head (rest : List String) (junk : List (Option String)) :
    (rest.map some ++ none :: junk)[0]? = some rest.head? := by
  cases rest <;> simp


/-- Step equation of the `handle_redirection` loop: reading the NULL
terminator stops the loop. -/
theorem hrLoop_stop (fs : String → Nat → Bool) (f i : Nat) (st : RState)
    (h : st.args[i]? = some none) : hrLoop fs (f + 1) st i = st := by
  simp only [hrLoop, h]

/-- Step equation of the `handle_redirection` loop: reading outside the
array (no NULL terminator before the end) is flagged as out of bounds. -/
theorem hrLoop_oob (fs : String → Nat → Bool) (f i : Nat) (st : RState)
    (h : st.args[i]? = none) : hrLoop fs (f + 1) st i = { st with oob := true } := by
  simp only [hrLoop, h]

/-- Step equation of the `handle_redirection` loop at a `>` token. -/
theorem hrLoop_gt (fs : String → Nat → Bool) (f i : Nat) (st : RState)
    (h : st.args[i]? = some (some ">")) :
    hrLoop fs (f + 1) st i = hrLoop fs f
      { args := st.args.set i none, stdinS := st.stdinS,
        stdoutS := if openCall fs ((st.args[i + 1]?).getD none) (O_WRONLY ||| O_CREAT ||| O_TRUNC)
          then (st.args[i + 1]?).getD none else st.stdoutS,
        opens := st.opens ++
          [⟨(st.args[i + 1]?).getD none, O_WRONLY ||| O_CREAT ||| O_TRUNC, some 0o644⟩],
        errs := st.errs, oob := st.oob || (st.args[i + 1]?).isNone } (i + 1) := by
  simp only [hrLoop, h]
  simp

/-- Step equation of the `handle_redirection` loop at a `>>` token. -/
theorem hrLoop_app (fs : String → Nat → Bool) (f i : Nat) (st : RState)
    (h : st.args[i]? = some (some ">>")) :
    hrLoop fs (f + 1) st i = hrLoop fs f
      { args := st.args.set i none, stdinS := st.stdinS,
        stdoutS := if openCall fs ((st.args[i + 1]?).getD none) (O_WRONLY ||| O_CREAT ||| O_APPEND)
          then (st.args[i + 1]?).getD none else st.stdoutS,
        opens := st.opens ++
          [⟨(st.args[i + 1]?).getD none, O_WRONLY ||| O_CREAT ||| O_APPEND, some 0o644⟩],
        errs := st.errs, oob := st.oob || (st.args[i + 1]?).isNone } (i + 1) := by
  simp only [hrLoop, h]
  simp

/-- Step equation of the `handle_redirection` loop at a `<` token. -/
theorem hrLoop_lt (fs : String → Nat → Bool) (f i : Nat) (st : RState)
    (h : st.args[i]? = some (some "<")) :
    hrLoop fs (f + 1) st i = hrLoop fs f
      { args := st.args.set i none,
        stdinS := if openCall fs ((st.args[i + 1]?).getD none) O_RDONLY
          then (st.args[i + 1]?).getD none else st.stdinS,
        stdoutS := st.stdoutS,
        opens := st.opens ++ [⟨(st.args[i + 1]?).getD none, O_RDONLY, none⟩],
        errs := st.errs ++
          (if openCall fs ((st.args[i + 1]?).getD none) O_RDONLY then [] else ["open"]),
        oob := st.oob || (st.args[i + 1]?).isNone } (i + 1) := by
  simp only [hrLoop, h]
  simp

/-- Step equation of the `handle_redirection` loop at an ordinary token. -/
theorem hrLoop_skip (fs : String → Nat → Bool) (f i : Nat) (st : RState) (tok : String)
    (h : st.args[i]? = some (some tok)) (h1 : ¬ tok = ">") (h2 : ¬ tok = ">>")
    (h3 : ¬ tok = "<") : hrLoop fs (f + 1) st i = hrLoop fs f st (i + 1) := by
  simp only [hrLoop, h]
  simp [h1, h2, h3]

/-- Master characterization of the `handle_redirection` loop. Run on an
argument array of the shape the source produces — a region of tokens, the
NULL terminator, then arbitrary residue — starting at the head of the token
region, the loop NULLs exactly the redirection-operator positions, issues
exactly the `open` calls of the redirection occurrences with the source's
flags and mode, emits a `perror` diagnostic exactly for each failing `<`
open, rebinds the streams left to right with each successful open
overriding the previous binding, and never reads or writes outside the
array. -/
theorem hrLoop_spec (fs : String → Nat → Bool) (tokens : List String) :
    ∀ (front junk : List (Option String)) (si so : Option String) (opens : List OpenCall)
      (errs : List String) (fuel : Nat), tokens.length + 1 ≤ fuel →
      hrLoop fs fuel ⟨front ++ (tokens.map some ++ (none :: junk)), si, so, opens, errs, false⟩
          front.length
        = ⟨front ++ (markRedirs tokens ++ (none :: junk)),
           (applyOccs fs (redirOccs tokens) (si, so)).1,
           (applyOccs fs (redirOccs tokens) (si, so)).2,
           opens ++ (redirOccs tokens).map occCall,
           errs ++ errsOfOccs fs (redirOccs tokens), false⟩ := by
  induction tokens with
  | nil =>
    intro front junk si so opens errs fuel hf
    cases fuel with
    | zero => omega
    | succ f =>
      rw [hrLoop_stop fs f front.length _ (by simpa using getElem?_append_len front (none :: junk))]
      simp [markRedirs, redirOccs, applyOccs, errsOfOccs]
  | cons t rest ih =>
    intro front junk si so opens errs fuel hf
    cases fuel with
    | zero => simp at hf
    | succ f =>
      have hfr : rest.length + 1 ≤ f := by simp at hf; omega
      have hget : ((front ++ ((t :: rest).map some ++ (none :: junk))))[front.length]?
          = some (some t) := by
        simpa using getElem?_append_len front (some t :: (rest.map some ++ (none :: junk)))
      have hget2 : ((front ++ ((t :: rest).map some ++ (none :: junk))))[front.length + 1]?
          = some rest.head? := by
        have h1 := getElem?_append_len_succ front (some t) (rest.map some ++ (none :: junk))
        simp only [List.map_cons, List.cons_append]
        rw [h1, mapSome_head]
      have hset : (front ++ ((t :: rest).map some ++ (none :: junk))).set front.length none
          = (front ++ [none]) ++ (rest.map some ++ (none :: junk)) := by
        have h1 := set_append_len front (some t) (rest.map some ++ (none :: junk)) none
        simp only [List.map_cons, List.cons_append]
        rw [h1]
        simp
      have hlen1 : front.length + 1 = (front ++ [none]).length := by simp
      by_cases ht1 : t = ">"
      · subst ht1
        rw [hrLoop_gt fs f front.length _ hget]
        simp only [hget2, hset, Option.getD_some, Option.isNone_some, Bool.or_false]
        rw [hlen1, ih (front ++ [none]) junk si _ _ errs f hfr]
        simp [markRedirs, isRedirTok, redirOccs, applyOccs, errsOfOccs, occCall, opFlags, opMode]
      · by_cases ht2 : t = ">>"
        · subst ht2
          rw [hrLoop_app fs f front.length _ hget]
          simp only [hget2, hset, Option.getD_some, Option.isNone_some, Bool.or_false]
          rw [hlen1, ih (front ++ [none]) junk si _ _ errs f hfr]
          simp [markRedirs, isRedirTok, redirOccs, applyOccs, errsOfOccs, occCall, opFlags, opMode]
        · by_cases ht3 : t = "<"
          · subst ht3
            rw [hrLoop_lt fs f front.length _ hget]
            simp only [hget2, hset, Option.getD_some, Option.isNone_some, Bool.or_false]
            rw [hlen1, ih (front ++ [none]) junk _ so _ _ f hfr]
            simp [markRedirs, isRedirTok, redirOccs, applyOccs, errsOfOccs, occCall, opFlags,
              opMode]
            cases openCall fs rest.head? O_RDONLY <;> simp
          · rw [hrLoop_skip fs f front.length _ t hget ht1 ht2 ht3]
            have hre : (front ++ ((t :: rest).map some ++ (none :: junk)))
                = (front ++ [some t]) ++ (rest.map some ++ (none :: junk)) := by simp
            have hlen2 : front.length + 1 = (front ++ [some t]).length := by simp
            rw [hre, hlen2, ih (front ++ [some t]) junk si so opens errs f hfr]
            simp [markRedirs, isRedirTok, ht1, ht2, ht3, redirOccs, applyOccs, errsOfOccs]

/-- `handle_redirection` on an argument array as produced by `parse_args`
(tokens, NULL terminator, arbitrary residue): the redirection-operator
positions are NULLed, the `open` calls are exactly those of the redirection
occurrences, the diagnostics are exactly those of the failing `<` opens,
the streams are rebound left to right, and no access leaves the array. -/
theorem handle_redirection_spec (fs : String → Nat → Bool) (tokens : List String)
    (junk : List (Option String)) :
    handle_redirection fs (tokens.map some ++ (none :: junk))
      = ⟨markRedirs tokens ++ (none :: junk),
         (applyOccs fs (redirOccs tokens) (none, none)).1,
         (applyOccs fs (redirOccs tokens) (none, none)).2,
         (redirOccs tokens).map occCall,
         errsOfOccs fs (redirOccs tokens), false⟩ := by
  have h := hrLoop_spec fs tokens [] junk none none [] []
    ((tokens.map some ++ (none :: junk)).length + 1) (by simp)
  simpa [handle_redirection] using h

/-- The argument vector `execvp` receives after `handle_redirection` ran on
a token region: the tokens strictly before the first redirection operator
(whose position was NULLed). -/
theorem argvOf_markRedirs (tokens : List String) (junk : List (Option String)) :
    argvOf (markRedirs tokens ++ (none :: junk))
      = tokens.takeWhile (fun t => !(isRedirTok t)) := by
  induction tokens with
  | nil => simp [markRedirs, argvOf]
  | cons t rest ih =>
    by_cases h : isRedirTok t = true
    · simp [markRedirs, argvOf, List.takeWhile, h]
    · simp only [Bool.not_eq_true] at h
      simp only [markRedirs] at ih
      simp [markRedirs, argvOf, List.takeWhile, h, ih]

/-- Applying redirection occurrences distributes over append. -/
theorem applyOccs_append (fs : String → Nat → Bool)
    (l₁ l₂ : List (RedirOp × Option String)) :
    ∀ s, applyOccs fs (l₁ ++ l₂) s = applyOccs fs l₂ (applyOccs fs l₁ s) := by
  induction l₁ with
  | nil => intro s; rfl
  | cons o rest ih =>
    intro s
    obtain ⟨si, so⟩ := s
    obtain ⟨op, p⟩ := o
    by_cases hop : op = RedirOp.rIn <;> simp [applyOccs, hop, ih]

/-- The stdout binding after applying occurrences does not depend on the
initial stdin binding. -/
theorem applyOccs_snd_si (fs : String → Nat → Bool) :
    ∀ (occs : List (RedirOp × Option String)) (si si' so : Option String),
      (applyOccs fs occs (si, so)).2 = (applyOccs fs occs (si', so)).2 := by
  intro occs
  induction occs with
  | nil => intro si si' so; rfl
  | cons o rest ih =>
    intro si si' so
    obtain ⟨op, p⟩ := o
    by_cases hop : op = RedirOp.rIn
    · subst hop
      simp only [applyOccs, if_pos rfl]
      exact ih _ _ _
    · simp only [applyOccs, if_neg hop]
      exact ih _ _ _

/-- The stdin binding after applying occurrences does not depend on the
initial stdout binding. -/
theorem applyOccs_fst_so (fs : String → Nat → Bool) :
    ∀ (occs : List (RedirOp × Option String)) (si so so' : Option String),
      (applyOccs fs occs (si, so)).1 = (applyOccs fs occs (si, so')).1 := by
  intro occs
  induction occs with
  | nil => intro si so so'; rfl
  | cons o rest ih =>
    intro si so so'
    obtain ⟨op, p⟩ := o
    by_cases hop : op = RedirOp.rIn
    · subst hop
      simp only [applyOccs, if_pos rfl]
      exact ih _ _ _
    · simp only [applyOccs, if_neg hop]
      exact ih _ _ _

/-- Only the `<` occurrences determine the final stdin binding. -/
theorem applyOccs_fst_filter (fs : String → Nat → Bool) :
    ∀ (occs : List (RedirOp × Option String)) (si so : Option String),
      (applyOccs fs occs (si, so)).1
        = (applyOccs fs (occs.filter (fun o => o.1 = RedirOp.rIn)) (si, so)).1 := by
  intro occs
  induction occs with
  | nil => intro si so; rfl
  | cons o rest ih =>
    intro si so
    obtain ⟨op, p⟩ := o
    by_cases hop : op = RedirOp.rIn
    · subst hop
      have h2 : ((RedirOp.rIn, p) :: rest).filter (fun o => o.1 = RedirOp.rIn)
          = (RedirOp.rIn, p) :: rest.filter (fun o => o.1 = RedirOp.rIn) := by
        simp [List.filter_cons]
      rw [h2]
      simp only [applyOccs, if_pos rfl]
      exact ih _ _
    · have h2 : ((op, p) :: rest).filter (fun o => o.1 = RedirOp.rIn)
          = rest.filter (fun o => o.1 = RedirOp.rIn) := by
        simp [List.filter_cons, hop]
      rw [h2]
      simp only [applyOccs, if_neg hop]
      rw [applyOccs_fst_so fs rest si _ so]
      exact ih _ _

/-- Only the `>`/`>>` occurrences determine the final stdout binding. -/
theorem applyOccs_snd_filter (fs : String → Nat → Bool) :
    ∀ (occs : List (RedirOp × Option String)) (si so : Option String),
      (applyOccs fs occs (si, so)).2
        = (applyOccs fs (occs.filter (fun o => !(o.1 = RedirOp.rIn))) (si, so)).2 := by
  intro occs
  induction occs with
  | nil => intro si so; rfl
  | cons o rest ih =>
    intro si so
    obtain ⟨op, p⟩ := o
    by_cases hop : op = RedirOp.rIn
    · subst hop
      have h2 : ((RedirOp.rIn, p) :: rest).filter (fun o => !(o.1 = RedirOp.rIn))
          = rest.filter (fun o => !(o.1 = RedirOp.rIn)) := by
        simp [List.filter_cons]
      rw [h2]
      simp only [applyOccs, if_pos rfl, if_true]
      rw [applyOccs_snd_si fs rest _ si so]
      exact ih _ _
    · have h2 : ((op, p) :: rest).filter (fun o => !(o.1 = RedirOp.rIn))
          = (op, p) :: rest.filter (fun o => !(o.1 = RedirOp.rIn)) := by
        simp [List.filter_cons, hop]
      rw [h2]
      simp only [applyOccs, if_neg hop]
      exact ih _ _

/-- A final successful write redirection fixes the stdout binding. -/
theorem applyOccs_snoc_write (fs : String → Nat → Bool)
    (occs : List (RedirOp × Option String)) (si so : Option String) (op : RedirOp) (p : String)
    (hop : ¬ op = RedirOp.rIn) (hfs : fs p (opFlags op) = true) :
    (applyOccs fs (occs ++ [(op, some p)]) (si, so)).2 = some p := by
  rw [applyOccs_append]
  obtain ⟨a, b⟩ := applyOccs fs occs (si, so)
  simp [applyOccs, openCall, hop, hfs]

/-- A final successful read redirection fixes the stdin binding. -/
theorem applyOccs_snoc_read (fs : String → Nat → Bool)
    (occs : List (RedirOp × Option String)) (si so : Option String) (p : String)
    (hfs : fs p O_RDONLY = true) :
    (applyOccs fs (occs ++ [(RedirOp.rIn, some p)]) (si, so)).1 = some p := by
  rw [applyOccs_append]
  obtain ⟨a, b⟩ := applyOccs fs occs (si, so)
  simp [applyOccs, openCall, opFlags, hfs]

/-- Every run of `execute_pipeline` contains a `wait` call (the source
always ends with `fork` + `wait(NULL)` for the last command slot). -/
theorem waitAny_mem (commands : List String) : Ev.waitAny ∈ execute_pipeline commands := by
  simp [execute_pipeline]

/-- The `parse_args` loop on a token list that fits the array: starting at
index `i`, it writes `(j, tokens[j])` at `j = i+1, …, len-1` and the NULL
terminator at index `len`. -/
theorem parseArgsLoop_le (tokens : List String) (hb : tokens.length ≤ MAX_ARGS - 1) :
    ∀ (fuel i : Nat), tokens.length ≤ i + fuel → i ≤ tokens.length →
      parseArgsLoop tokens i fuel
        = (List.range' (i + 1) (tokens.length - i)).map (fun j => (j, tokens[j]?)) := by
  intro fuel
  induction fuel with
  | zero =>
    intro i h1 h2
    have hi : i = tokens.length := by omega
    subst hi
    simp [parseArgsLoop]
  | succ f ih =>
    intro i h1 h2
    by_cases hlt : i < tokens.length
    · have hsm : (tokens[i]?).isSome := by
        rw [List.getElem?_eq_getElem hlt]
        rfl
      simp only [parseArgsLoop, if_pos (And.intro hsm (by omega : i < MAX_ARGS - 1))]
      rw [ih (i + 1) (by omega) (by omega)]
      have hn : tokens.length - i = (tokens.length - (i + 1)) + 1 := by omega
      rw [hn]
      rfl
    · have hi : i = tokens.length := by omega
      subst hi
      have hnone : tokens[tokens.length]? = none := by simp
      simp [parseArgsLoop, hnone]

/-- The `parse_args` loop on an overlong token list: the index guard stops
it at MAX_ARGS-1, having written tokens at every index up to MAX_ARGS-1 and
no NULL terminator. -/
theorem parseArgsLoop_ge (tokens : List String) (hb : MAX_ARGS ≤ tokens.length) :
    ∀ (fuel i : Nat), MAX_ARGS - 1 ≤ i + fuel → i ≤ MAX_ARGS - 1 →
      parseArgsLoop tokens i fuel
        = (List.range' (i + 1) (MAX_ARGS - 1 - i)).map (fun j => (j, tokens[j]?)) := by
  intro fuel
  induction fuel with
  | zero =>
    intro i h1 h2
    have hi : i = MAX_ARGS - 1 := by omega
    simp [parseArgsLoop, hi]
  | succ f ih =>
    intro i h1 h2
    by_cases hlt : i < MAX_ARGS - 1
    · have hsm : (tokens[i]?).isSome := by
        have hil : i < tokens.length := by omega
        rw [List.getElem?_eq_getElem hil]
        rfl
      simp only [parseArgsLoop, if_pos (And.intro hsm hlt)]
      rw [ih (i + 1) (by omega) (by omega)]
      have hn : MAX_ARGS - 1 - i = (MAX_ARGS - 1 - (i + 1)) + 1 := by omega
      rw [hn]
      rfl
    · have hi : i = MAX_ARGS - 1 := by omega
      subst hi
      have hno : ¬ ((tokens[MAX_ARGS - 1]?).isSome ∧ MAX_ARGS - 1 < MAX_ARGS - 1) := by
        simp
      simp [parseArgsLoop, hno]

/-- Every index the `parse_args` loop writes is at most MAX_ARGS-1. -/
theorem parseArgsLoop_indices (tokens : List String) :
    ∀ (fuel i : Nat) (p : Nat × Option String), p ∈ parseArgsLoop tokens i fuel →
      p.1 ≤ MAX_ARGS - 1 := by
  intro fuel
  induction fuel with
  | zero => intro i p hp; simp [parseArgsLoop] at hp
  | succ f ih =>
    intro i p hp
    by_cases hcond : (tokens[i]?).isSome ∧ i < MAX_ARGS - 1
    · simp only [parseArgsLoop, if_pos hcond] at hp
      rcases List.mem_cons.mp hp with h1 | h2
      · subst h1
        have := hcond.2
        simp only []
        omega
      · exact ih (i + 1) p h2
    · simp only [parseArgsLoop, if_neg hcond] at hp
      simp at hp

/-- C1: for the two-stage pipeline line `echo A | cat`, `execute_pipeline`
calls `pipe(2)` twice (the claim requires N-1 = 1 pipes for N = 2 stages)
and forks the last stage `cat` twice (once inside the loop, whose bound
`num_cmds-1` also counts the NULL slot of the `strtok` scan, and once in
the dedicated last-command block), so a stage is not launched exactly
once. -/
theorem C1_pipeline_pipe_and_fork_counts :
    countPipes (execute_pipeline ["echo A", " cat"]) = 2
  ∧ countForksOf (execute_pipeline ["echo A", " cat"]) " cat" = 2
  ∧ ¬ countPipes (execute_pipeline ["echo A", " cat"]) = 2 - 1 := by
  decide

/-- C2: after orchestrating the two-stage pipeline `echo A | cat`, the
parent still holds open the read end of every pipe it created (it closes
only the write ends; each `in_fd = pipefd[0]` is overwritten or abandoned
without a `close`), so the parent's descriptor table is not restored. -/
theorem C2_parent_leaks_read_ends :
    parentOpenFds (execute_pipeline ["echo A", " cat"]) = [PFd.rd 0, PFd.rd 1]
  ∧ ¬ parentOpenFds (execute_pipeline ["echo A", " cat"]) = [] := by
  decide

/-- C3: in the trace of the two-stage pipeline `echo A | cat`, a
`wait(NULL)` occurs strictly before a later fork — the source waits for
each stage inside the fork loop, so the first stage is awaited before the
second stage is launched, contradicting fork-all-then-wait. -/
theorem C3_wait_precedes_fork :
    hasWaitThenFork (execute_pipeline ["echo A", " cat"]) = true := by
  decide

/-- C4 counterexample: for the input line `sleep 5 | cat &`, whose last
token is `&` and which contains a pipe separator, the shell takes the
pipeline path, where no `&` handling exists: the iteration performs `wait`
calls (it does not return without waiting), and the `&` is passed through
inside the last stage's text instead of being removed. -/
theorem C4_cex_background_pipeline :
    Ev.waitAny ∈ (shell_iteration (fun _ => none) [] ("sleep 5 | cat &".toList)).2
  ∧ Ev.forkStage " cat &" ∈ (shell_iteration (fun _ => none) [] ("sleep 5 | cat &".toList)).2 := by
  decide

/-- C4 amended: only for a line without a pipe separator does a trailing
`&` mark background execution — the `&` is dropped from the argument
vector, a single fork happens, and no wait event occurs; for any line
whose expansion contains `|`, the iteration always performs a `wait`. -/
theorem C4_background_amended (env : String → Option String) (hist : List String)
    (raw : List Char) :
    (trim_newline raw ≠ [] →
      ((expand_variables env (trim_newline raw)).elem '|') = false →
      (tokenize (expand_variables env (trim_newline raw))).getLast? = some "&" →
      handle_builtin (tokenize (expand_variables env (trim_newline raw))).dropLast = false →
      (shell_iteration env hist raw).2
        = [Ev.forkSimple (tokenize (expand_variables env (trim_newline raw))).dropLast])
  ∧ (trim_newline raw ≠ [] →
      ((expand_variables env (trim_newline raw)).elem '|') = true →
      Ev.waitAny ∈ (shell_iteration env hist raw).2) := by
  constructor
  · intro h0 h1 h2 h3
    have hlen : ¬ (trim_newline raw).length = 0 := by
      simpa [List.length_eq_zero] using h0
    have h1m : ¬ '|' ∈ expand_variables env (trim_newline raw) := by
      simpa [List.elem_eq_mem] using h1
    simp [shell_iteration, hlen, h1m, stripAmp, h2, h3]
  · intro h0 h1
    have hlen : ¬ (trim_newline raw).length = 0 := by
      simpa [List.length_eq_zero] using h0
    have h1m : '|' ∈ expand_variables env (trim_newline raw) := by
      simpa [List.elem_eq_mem] using h1
    simp [shell_iteration, hlen, h1m]
    exact waitAny_mem _

/-- C4 witness: `sleep 5 &` forks once with `["sleep", "5"]` (the `&`
removed) and performs no wait; `echo hi | cat` always reaches a wait. -/
theorem C4_background_witness :
    (shell_iteration (fun _ => none) [] ("sleep 5 &".toList)).2
      = [Ev.forkSimple (tokenize (expand_variables (fun _ => none)
          (trim_newline ("sleep 5 &".toList)))).dropLast]
  ∧ Ev.waitAny ∈ (shell_iteration (fun _ => none) [] ("echo hi | cat".toList)).2 := by
  constructor
  · exact (C4_background_amended (fun _ => none) [] ("sleep 5 &".toList)).1
      (by decide) (by decide) (by decide) (by decide)
  · exact (C4_background_amended (fun _ => none) [] ("echo hi | cat".toList)).2
      (by decide) (by decide)

/-- C5 counterexample: the handling of a redirection operator that is the
final token is not chosen consistently — a trailing `<` reports an `open`
diagnostic (`perror`), while a trailing `>` is silently skipped. -/
theorem C5_cex_inconsistent_malformed :
    (handle_redirection (fun _ _ => true) [some "cat", some "<", none]).errs = ["open"]
  ∧ (handle_redirection (fun _ _ => true) [some "cat", some ">", none]).errs = [] := by
  decide

/-- C5 amended: on an argument array with the NULL terminator (at most
MAX_ARGS-1 tokens, so the array has MAX_ARGS slots), `handle_redirection`
never accesses memory outside the array — a trailing operator reads the
NULL terminator as its filename and passes it to `open`, which fails; but
the outcome is not consistent across operators: the resulting `(op, NULL)`
occurrence yields the diagnostic `open` for `<` and no diagnostic for `>`
and `>>`. -/
theorem C5_malformed_safety_amended (fs : String → Nat → Bool) (tokens : List String)
    (junk : List (Option String)) :
    tokens.length + junk.length = MAX_ARGS - 1 →
    ((tokens.map some ++ (none :: junk)).length = MAX_ARGS
      ∧ (handle_redirection fs (tokens.map some ++ (none :: junk))).oob = false)
  ∧ ((handle_redirection fs (tokens.map some ++ (none :: junk))).errs
      = errsOfOccs fs (redirOccs tokens)
    ∧ errsOfOccs fs [(RedirOp.rIn, none)] = ["open"]
    ∧ errsOfOccs fs [(RedirOp.rTrunc, none)] = []
    ∧ errsOfOccs fs [(RedirOp.rApp, none)] = []) := by
  intro hlen
  rw [handle_redirection_spec]
  refine ⟨⟨by simp [MAX_ARGS] at hlen ⊢; omega, rfl⟩, rfl, ?_, ?_, ?_⟩ <;>
    simp [errsOfOccs, openCall]

/-- C5 witness: the two-token command `cat <` inside the 128-slot array. -/
theorem C5_malformed_safety_witness :
    (["cat", "<"] : List String).length + (List.replicate 125 (none : Option String)).length
      = MAX_ARGS - 1
  ∧ (handle_redirection (fun _ _ => true)
      ((["cat", "<"] : List String).map some ++ (none :: List.replicate 125 none))).oob = false := by
  refine ⟨by simp [MAX_ARGS], ?_⟩
  exact ((C5_malformed_safety_amended (fun _ _ => true) ["cat", "<"]
    (List.replicate 125 none) (by simp [MAX_ARGS])).1).2

/-- C6 counterexample: a `>` redirection whose target fails to open
produces no diagnostic at all (the source checks `fd < 0` only for `<`),
refuting "reported for all three redirection kinds". The open is attempted
(it appears in the call list) but its failure is silent. -/
theorem C6_cex_silent_write_failure :
    (handle_redirection (fun _ _ => false) [some "cmd", some ">", some "out.txt", none]).errs = []
  ∧ (handle_redirection (fun _ _ => false) [some "cmd", some ">", some "out.txt", none]).opens
      = [⟨some "out.txt", O_WRONLY ||| O_CREAT ||| O_TRUNC, some 0o644⟩] := by
  decide

/-- C6 amended: a diagnostic is reported exactly for the `<` redirections
whose open fails; failing `>`/`>>` opens are silent; in every case the
command still proceeds — redirection handling completes and the surviving
argument vector (the tokens before the first operator) is handed to
`execvp`. -/
theorem C6_diagnostics_amended (fs : String → Nat → Bool) (tokens : List String)
    (junk : List (Option String)) :
    (handle_redirection fs (tokens.map some ++ (none :: junk))).errs
      = errsOfOccs fs (redirOccs tokens)
  ∧ (∀ p, fs p O_RDONLY = false → errsOfOccs fs [(RedirOp.rIn, some p)] = ["open"])
  ∧ (∀ p, errsOfOccs fs [(RedirOp.rTrunc, some p)] = [])
  ∧ (∀ p, errsOfOccs fs [(RedirOp.rApp, some p)] = [])
  ∧ argvOf (handle_redirection fs (tokens.map some ++ (none :: junk))).args
      = tokens.takeWhile (fun t => !(isRedirTok t)) := by
  rw [handle_redirection_spec]
  refine ⟨rfl, ?_, ?_, ?_, ?_⟩
  · intro p hp
    simp [errsOfOccs, openCall, hp]
  · intro p
    simp [errsOfOccs]
  · intro p
    simp [errsOfOccs]
  · exact argvOf_markRedirs tokens junk

/-- C6 witness: `cmd < nofile` with a file system on which every open
fails: the diagnostics of the run are those of its occurrences, and the
failing `<` occurrence contributes exactly the `open` diagnostic. -/
theorem C6_diagnostics_witness :
    (handle_redirection (fun _ _ => false)
        ((["cmd", "<", "nofile"] : List String).map some ++ (none :: ([] : List (Option String))))).errs
      = errsOfOccs (fun _ _ => false) (redirOccs ["cmd", "<", "nofile"])
  ∧ errsOfOccs (fun _ _ => false) [(RedirOp.rIn, some "nofile")] = ["open"] := by
  exact ⟨(C6_diagnostics_amended (fun _ _ => false) ["cmd", "<", "nofile"] []).1,
    (C6_diagnostics_amended (fun _ _ => false) ["cmd", "<", "nofile"] []).2.1 "nofile" rfl⟩

/-- C7 counterexample: for `echo a > f b`, the claim predicts the executed
argument vector `["echo", "a", "b"]` (operator and filename removed, later
tokens kept), but writing NULL over the operator position truncates the
vector `execvp` sees at the first redirection: it is `["echo", "a"]`. -/
theorem C7_cex_argv_truncated :
    argvOf (handle_redirection (fun _ _ => true)
        [some "echo", some "a", some ">", some "f", some "b", none]).args = ["echo", "a"]
  ∧ ¬ argvOf (handle_redirection (fun _ _ => true)
        [some "echo", some "a", some ">", some "f", some "b", none]).args
      = ["echo", "a", "b"] := by
  decide

/-- C7 amended: the argument vector passed to the executed program consists
of exactly the tokens strictly before the first redirection operator;
every token from the first operator on (its filename and any further
arguments) is cut off, because the operator position is overwritten with
NULL and `execvp` stops at the first NULL. -/
theorem C7_argv_amended (fs : String → Nat → Bool) (tokens : List String)
    (junk : List (Option String)) :
    argvOf (handle_redirection fs (tokens.map some ++ (none :: junk))).args
      = tokens.takeWhile (fun t => !(isRedirTok t)) := by
  rw [handle_redirection_spec]
  exact argvOf_markRedirs tokens junk

/-- C8: every `open` issued by `handle_redirection` carries exactly the
flags and mode of its operator — `O_RDONLY` (no mode) for `<`,
`O_WRONLY|O_CREAT|O_TRUNC, 0644` for `>`, `O_WRONLY|O_CREAT|O_APPEND,
0644` for `>>` (`occCall`/`opFlags`/`opMode` spell these out) — and
redirections are applied left to right: the last occurrence affecting a
stream wins, provided its open succeeds. -/
theorem C8_open_flags_lastwins (fs : String → Nat → Bool) (tokens : List String)
    (junk : List (Option String)) :
    (handle_redirection fs (tokens.map some ++ (none :: junk))).opens
      = (redirOccs tokens).map occCall
  ∧ (∀ (pre : List (RedirOp × Option String)) (op : RedirOp) (p : String),
      ¬ op = RedirOp.rIn → fs p (opFlags op) = true →
      (redirOccs tokens).filter (fun o => !(o.1 = RedirOp.rIn)) = pre ++ [(op, some p)] →
      (handle_redirection fs (tokens.map some ++ (none :: junk))).stdoutS = some p)
  ∧ (∀ (pre : List (RedirOp × Option String)) (p : String),
      fs p O_RDONLY = true →
      (redirOccs tokens).filter (fun o => o.1 = RedirOp.rIn) = pre ++ [(RedirOp.rIn, some p)] →
      (handle_redirection fs (tokens.map some ++ (none :: junk))).stdinS = some p) := by
  rw [handle_redirection_spec]
  refine ⟨rfl, ?_, ?_⟩
  · intro pre op p hop hfs hfilter
    show (applyOccs fs (redirOccs tokens) (none, none)).2 = some p
    rw [applyOccs_snd_filter, hfilter]
    exact applyOccs_snoc_write fs pre none none op p hop hfs
  · intro pre p hfs hfilter
    show (applyOccs fs (redirOccs tokens) (none, none)).1 = some p
    rw [applyOccs_fst_filter, hfilter]
    exact applyOccs_snoc_read fs pre none none p hfs

/-- C8 witness: for `cmd > a >> b < x` with every open succeeding, the last
write redirection `>> b` wins for stdout and `< x` binds stdin. -/
theorem C8_open_flags_lastwins_witness :
    (handle_redirection (fun _ _ => true)
        ((["cmd", ">", "a", ">>", "b", "<", "x"] : List String).map some
          ++ (none :: ([] : List (Option String))))).stdoutS = some "b"
  ∧ (handle_redirection (fun _ _ => true)
        ((["cmd", ">", "a", ">>", "b", "<", "x"] : List String).map some
          ++ (none :: ([] : List (Option String))))).stdinS = some "x" := by
  constructor
  · exact (C8_open_flags_lastwins (fun _ _ => true) ["cmd", ">", "a", ">>", "b", "<", "x"] []).2.1
      [(RedirOp.rTrunc, some "a")] RedirOp.rApp "b" (by decide) rfl (by decide)
  · exact (C8_open_flags_lastwins (fun _ _ => true) ["cmd", ">", "a", ">>", "b", "<", "x"] []).2.2
      [] "x" rfl (by decide)

/-- C9: `parse_args` writes, for a line of at most MAX_ARGS-1 = 127 tokens,
exactly the tokens in order at indices 0..len-1 followed by the NULL
terminator at index len; every write lands at an index at most MAX_ARGS-1
(never at MAX_ARGS or beyond); and for 128 or more tokens it writes the
first 128 tokens at indices 0..127 with no NULL terminator (the rest are
dropped). -/
theorem C9_parse_args_bounds (tokens : List String) :
    (tokens.length ≤ MAX_ARGS - 1 →
      parse_args tokens = (List.range (tokens.length + 1)).map (fun j => (j, tokens[j]?)))
  ∧ (∀ p ∈ parse_args tokens, p.1 ≤ MAX_ARGS - 1)
  ∧ (MAX_ARGS ≤ tokens.length →
      parse_args tokens = (List.range MAX_ARGS).map (fun j => (j, tokens[j]?))) := by
  refine ⟨?_, ?_, ?_⟩
  · intro h
    rw [parse_args, parseArgsLoop_le tokens h (MAX_ARGS - 1) 0 (by omega) (by omega),
      List.range_eq_range']
    rfl
  · intro p hp
    rcases List.mem_cons.mp hp with h1 | h2
    · subst h1
      simp only []
      omega
    · exact parseArgsLoop_indices tokens (MAX_ARGS - 1) 0 p h2
  · intro h
    rw [parse_args, parseArgsLoop_ge tokens h (MAX_ARGS - 1) 0 (by omega) (by omega),
      List.range_eq_range']
    rfl

/-- C9 witness: the two-token line `ls -l`. -/
theorem C9_parse_args_witness :
    parse_args ["ls", "-l"]
      = (List.range ((["ls", "-l"] : List String).length + 1)).map
          (fun j => (j, (["ls", "-l"] : List String)[j]?)) := by
  exact (C9_parse_args_bounds ["ls", "-l"]).1 (by decide)

/-- C10: an input line that is empty after newline trimming leaves the
iteration a no-op: the history is unchanged and no event (no expansion, no
fork, no wait) is performed before the next prompt. -/
theorem C10_empty_line_noop (env : String → Option String) (hist : List String)
    (raw : List Char) (h : trim_newline raw = []) :
    shell_iteration env hist raw = (hist, []) := by
  simp [shell_iteration, h]

/-- C10 witness: the line consisting of a lone newline. -/
theorem C10_empty_line_witness :
    shell_iteration (fun _ => none) [] ['\n'] = ([], []) :=
  C10_empty_line_noop (fun _ => none) [] ['\n'] (by decide)
